import Mathlib

/-!
Shallow embedding of `src/main.rs` of the uboot-patcher repository: a codec
for U-Boot's redundant, CRC32-protected environment blob, plus region-scoped
file I/O. Byte strings are `List Nat` (each entry a byte value); Rust
`String`s are their UTF-8 byte sequences, so environments are lists of pairs
of byte strings, listed in the iteration order of the backing `HashMap`.
Rust panics (slice-index failures, `unwrap`, the explicit size check) are
modelled as explicit `panicked` outcomes.
-/

set_option maxRecDepth 16000

deriving instance DecidableEq for Except

namespace UBoot

abbrev Bytes := List Nat

/-! ### CRC32 (the `crc32fast::hash` function)

`crc32fast::hash` computes the standard IEEE CRC-32 (reflected,
polynomial 0xEDB88320, initial value 0xFFFFFFFF, final xor 0xFFFFFFFF). -/

def crcStep (c : Nat) : Nat :=
  if c % 2 = 1 then (c / 2) ^^^ 0xEDB88320 else c / 2

def crcByte (c b : Nat) : Nat :=
  crcStep^[8] (c ^^^ b % 256)

def crc32 (data : Bytes) : Nat :=
  (data.foldl crcByte 0xFFFFFFFF) ^^^ 0xFFFFFFFF

/-! ### Little-endian u32 (`u32::from_le_bytes` / `u32::to_le_bytes`) -/

def u32ToLeBytes (n : Nat) : Bytes :=
  [n % 256, n / 256 % 256, n / 65536 % 256, n / 16777216 % 256]

def u32FromLeBytes (bs : Bytes) : Nat :=
  bs.getD 0 0 + 256 * bs.getD 1 0 + 65536 * bs.getD 2 0 + 16777216 * bs.getD 3 0

/-! ### Splitting on NUL bytes (`slice::split(|b| *b == 0u8)`) -/

def splitOnZero : Bytes → List Bytes
  | [] => [[]]
  | b :: rest =>
    if b = 0 then [] :: splitOnZero rest
    else
      match splitOnZero rest with
      | [] => [[b]]
      | h :: t => (b :: h) :: t

/-! ### UTF-8 validity (`std::str::from_utf8`)

Standard UTF-8 acceptance automaton. State 0 is "at a character boundary";
states 1-3 expect that many generic continuation bytes; states 4-7 encode the
constrained second byte after a leading 0xE0 / 0xED / 0xF0 / 0xF4; state 9 is
the absorbing reject state. A byte string is valid UTF-8 iff running the
automaton from state 0 ends back in state 0. -/

def utf8Step (s b : Nat) : Nat :=
  match s with
  | 0 =>
    if b < 128 then 0
    else if 194 ≤ b ∧ b ≤ 223 then 1
    else if b = 224 then 4
    else if (225 ≤ b ∧ b ≤ 236) ∨ b = 238 ∨ b = 239 then 2
    else if b = 237 then 5
    else if b = 240 then 6
    else if 241 ≤ b ∧ b ≤ 243 then 3
    else if b = 244 then 7
    else 9
  | 1 => if 128 ≤ b ∧ b ≤ 191 then 0 else 9
  | 2 => if 128 ≤ b ∧ b ≤ 191 then 1 else 9
  | 3 => if 128 ≤ b ∧ b ≤ 191 then 2 else 9
  | 4 => if 160 ≤ b ∧ b ≤ 191 then 1 else 9
  | 5 => if 128 ≤ b ∧ b ≤ 159 then 1 else 9
  | 6 => if 144 ≤ b ∧ b ≤ 191 then 2 else 9
  | 7 => if 128 ≤ b ∧ b ≤ 143 then 2 else 9
  | _ => 9

def validUtf8 (l : Bytes) : Bool :=
  l.foldl utf8Step 0 == 0

/-! ### `str::split_once("=")`

`=` is ASCII 61 and an ASCII byte never occurs inside a multi-byte UTF-8
character, so splitting the string at its first `=` is splitting the byte
string at the first 61. Returns `none` when no `=` is present. -/

def splitOnce61 : Bytes → Option (Bytes × Bytes)
  | [] => none
  | b :: rest =>
    if b = 61 then some ([], rest)
    else
      match splitOnce61 rest with
      | some (k, v) => some (b :: k, v)
      | none => none

/-! ### The `HashMap` (`insert` / `from_iter` / lookup)

A `HashMap<String, String>` value is represented as an association list with
pairwise-distinct keys; `envInsert` is `HashMap::insert` (replaces the value
of an existing key, otherwise adds the pair), `buildEnv` is
`HashMap::from_iter` (inserts the pairs in iteration order, so a later pair
with the same key overwrites an earlier one), `envLookup` is key lookup. -/

def envInsert (m : List (Bytes × Bytes)) (k v : Bytes) : List (Bytes × Bytes) :=
  if m.any (fun p => p.1 == k) then m.map (fun p => if p.1 == k then (k, v) else p)
  else m ++ [(k, v)]

def buildEnv (ps : List (Bytes × Bytes)) : List (Bytes × Bytes) :=
  ps.foldl (fun m p => envInsert m p.1 p.2) []

def envLookup (m : List (Bytes × Bytes)) (k : Bytes) : Option Bytes :=
  (m.find? (fun p => p.1 == k)).map (fun p => p.2)

/-! ### Decoding (`redundant_env_bytes_to_hashmap`) -/

/-- The ways the Rust decoder can terminate the process: an out-of-range
slice index, `std::str::from_utf8(sl).unwrap()` on invalid UTF-8, or
`line.split_once("=").unwrap()` on a record without `=`. -/
inductive PanicKind
  | sliceOutOfBounds
  | utf8Error
  | missingSeparator
deriving DecidableEq

/-- Processing of the NUL-separated candidate records, mirroring the Rust
iterator pipeline: each candidate is first converted with
`from_utf8(..).unwrap()` (a non-UTF-8 candidate aborts), zero-length
candidates are then filtered out, and each survivor is split at its first
`=` with `split_once("=").unwrap()` (a candidate without `=` aborts). -/
def parseRecords : List Bytes → Except PanicKind (List (Bytes × Bytes))
  | [] => .ok []
  | c :: rest =>
    if validUtf8 c then
      if c.length > 0 then
        match splitOnce61 c with
        | some (k, v) => (parseRecords rest).map (fun ps => (k, v) :: ps)
        | none => .error .missingSeparator
      else parseRecords rest
    else .error .utf8Error

/-- `u32::from_le_bytes(bytes[0..4].try_into())`: slot 1's stored CRC. -/
def storedCrc1 (bytes : Bytes) : Nat :=
  u32FromLeBytes (bytes.take 4)

/-- `u32::from_le_bytes(bytes[single_len..single_len+4].try_into())`:
slot 2's stored CRC, where `single_len = bytes.len() / 2`. -/
def storedCrc2 (bytes : Bytes) : Nat :=
  u32FromLeBytes ((bytes.drop (bytes.length / 2)).take 4)

/-- `crc32fast::hash(&bytes[5..single_len])`: CRC computed over slot 1's
data region. -/
def calcCrc1 (bytes : Bytes) : Nat :=
  crc32 ((bytes.drop 5).take (bytes.length / 2 - 5))

/-- `crc32fast::hash(&bytes[single_len+5..])`: CRC computed over slot 2's
data region. -/
def calcCrc2 (bytes : Bytes) : Nat :=
  crc32 (bytes.drop (bytes.length / 2 + 5))

inductive DecodeResult
  | ok (env : List (Bytes × Bytes))
  | crcMismatch (stored1 stored2 calc1 calc2 : Nat)
  | panicked (k : PanicKind)
deriving DecidableEq

/-- `redundant_env_bytes_to_hashmap` from `src/main.rs`. The first guard
models the Rust slice-index panics: `bytes[0..4]` requires `len ≥ 4`,
`bytes[single_len..single_len+4]` requires `single_len+4 ≤ len`,
`bytes[5..single_len]` requires `5 ≤ single_len`, and
`bytes[single_len+5..]` requires `single_len+5 ≤ len`. -/
def redundant_env_bytes_to_hashmap (bytes : Bytes) : DecodeResult :=
  if bytes.length < 4 ∨ bytes.length < bytes.length / 2 + 4 ∨
      bytes.length / 2 < 5 ∨ bytes.length < bytes.length / 2 + 5 then
    .panicked .sliceOutOfBounds
  else if ¬(storedCrc1 bytes = storedCrc2 bytes ∧ storedCrc1 bytes = calcCrc1 bytes ∧
      storedCrc1 bytes = calcCrc2 bytes) then
    .crcMismatch (storedCrc1 bytes) (storedCrc2 bytes) (calcCrc1 bytes) (calcCrc2 bytes)
  else
    match parseRecords (splitOnZero ((bytes.drop 5).take (bytes.length / 2 - 5))) with
    | .ok ps => .ok (buildEnv ps)
    | .error k => .panicked k

/-! ### Encoding (`hashmap_to_redundant_env_bytes`) -/

/-- The `for (key, val) in hm` loop: each pair contributes
`key ++ "=" ++ val ++ NUL` to `data_bytes`, in iteration order. -/
def serializeEnv : List (Bytes × Bytes) → Bytes
  | [] => []
  | p :: rest => p.1 ++ [61] ++ p.2 ++ [0] ++ serializeEnv rest

inductive EncodeResult
  | ok (bytes : Bytes)
  | dataTooLarge (usage maxLen : Nat)
  | panicked
deriving DecidableEq

/-- `hashmap_to_redundant_env_bytes` from `src/main.rs`.
`max_data_len = (len / 2) - 5` (the claims under consideration keep
`len / 2 ≥ 5`, where Rust usize subtraction and Nat subtraction agree);
`dataTooLarge` is the `anyhow!("not enough space ...")` error carrying the
actual and maximum sizes, and `panicked` models the
`"environment is the wrong size!"` process abort. -/
def hashmap_to_redundant_env_bytes (hm : List (Bytes × Bytes)) (len : Nat) :
    EncodeResult :=
  let max_data_len := len / 2 - 5
  let data_bytes := serializeEnv hm
  if data_bytes.length > max_data_len then
    .dataTooLarge data_bytes.length max_data_len
  else
    let padded := data_bytes ++ List.replicate (max_data_len - data_bytes.length) 0
    let crc := crc32 padded
    let total_vec := u32ToLeBytes crc ++ [1] ++ padded ++ u32ToLeBytes crc ++ [0] ++ padded
    if total_vec.length ≠ len then .panicked
    else .ok total_vec

/-! ### File I/O (`read_file` / `patch_file`)

A file is its byte contents. `read_file` allocates `vec![0; len]`, seeks to
`offset` and performs a SINGLE `f.read(&mut buf)` call: for a regular file
this fills at most the bytes available from `offset` to end-of-file and
leaves the remainder of the buffer at its initial zero value; the return
value of `read` is not checked. `patch_file` opens the pre-existing file for
writing (no truncation), seeks to `offset` and writes the whole encoded blob
with `write_all` (which loops until every byte is written). -/

def readBuffer (file : Bytes) (offset len : Nat) : Bytes :=
  let got := (file.drop offset).take len
  got ++ List.replicate (len - got.length) 0

def read_file (file : Bytes) (offset len : Nat) : DecodeResult :=
  redundant_env_bytes_to_hashmap (readBuffer file offset len)

/-- Writing `data` at `offset` over existing file contents (the effect of
seek + `write_all` on a file of length at least `offset + data.length`). -/
def writeAt (file : Bytes) (offset : Nat) (data : Bytes) : Bytes :=
  file.take offset ++ data ++ file.drop (offset + data.length)

/-- `patch_file` from `src/main.rs`: encode, then overwrite the region;
returns the new file contents, or `none` when encoding fails. -/
def patch_file (hm : List (Bytes × Bytes)) (file : Bytes) (offset len : Nat) :
    Option Bytes :=
  match hashmap_to_redundant_env_bytes hm len with
  | .ok bs => some (writeAt file offset bs)
  | _ => none

/-! ### Derived shapes used in the proofs -/

/-- The redundant blob built around one data region `d`:
`[CRC32 LE][flag 1][d][CRC32 LE][flag 0][d]`. -/
def mkBlob (d : Bytes) : Bytes :=
  u32ToLeBytes (crc32 d) ++ [1] ++ d ++ u32ToLeBytes (crc32 d) ++ [0] ++ d

/-- The padded data region encode produces for `hm` at total length `len`. -/
def paddedOf (hm : List (Bytes × Bytes)) (len : Nat) : Bytes :=
  serializeEnv hm ++ List.replicate (len / 2 - 5 - (serializeEnv hm).length) 0

/-- The full blob encode produces for `hm` at total length `len`. -/
def encLayout (hm : List (Bytes × Bytes)) (len : Nat) : Bytes :=
  mkBlob (paddedOf hm len)

/-- The spec's concrete example environment: `{"bootdelay": "5"}`
("bootdelay" = bytes 98 111 111 116 100 101 108 97 121, "5" = byte 53). -/
def bootdelayEnv : List (Bytes × Bytes) :=
  [([98, 111, 111, 116, 100, 101, 108, 97, 121], [53])]

/-- The serialized record `"bootdelay=5\x00"`. -/
def bootdelayRecord : Bytes :=
  [98, 111, 111, 116, 100, 101, 108, 97, 121, 61, 53, 0]

/-- The blob obtained by encoding the example at `L = 0x20000 = 131072`. -/
def bootdelayBlob : Bytes :=
  encLayout bootdelayEnv 131072

/-! ### CRC32 stays below 2^32 -/

lemma crcStep_lt {c : Nat} (h : c < 2 ^ 32) : crcStep c < 2 ^ 32 := by
  unfold crcStep
  split
  · exact Nat.xor_lt_two_pow (by omega) (by norm_num)
  · omega

lemma crcIter_lt (n : Nat) {c : Nat} (h : c < 2 ^ 32) : crcStep^[n] c < 2 ^ 32 := by
  induction n generalizing c with
  | zero => simpa using h
  | succ k ih => rw [Function.iterate_succ_apply]; exact ih (crcStep_lt h)

lemma crcByte_lt {c : Nat} (h : c < 2 ^ 32) (b : Nat) : crcByte c b < 2 ^ 32 := by
  unfold crcByte
  exact crcIter_lt 8 (Nat.xor_lt_two_pow h (by have := Nat.mod_lt b (y := 256) (by omega); omega))

lemma crcFold_lt (l : Bytes) {c : Nat} (h : c < 2 ^ 32) :
    l.foldl crcByte c < 2 ^ 32 := by
  induction l generalizing c with
  | nil => simpa using h
  | cons b t ih => exact ih (crcByte_lt h b)

lemma crc32_lt (l : Bytes) : crc32 l < 2 ^ 32 := by
  unfold crc32
  exact Nat.xor_lt_two_pow (crcFold_lt l (by norm_num)) (by norm_num)

/-! ### Little-endian round trip -/

lemma u32ToLeBytes_length (n : Nat) : (u32ToLeBytes n).length = 4 := rfl

lemma u32_roundtrip {n : Nat} (h : n < 2 ^ 32) :
    u32FromLeBytes (u32ToLeBytes n) = n := by
  show n % 256 + 256 * (n / 256 % 256) + 65536 * (n / 65536 % 256) +
    16777216 * (n / 16777216 % 256) = n
  omega

/-! ### Structure of a freshly assembled blob -/

lemma mkBlob_length (d : Bytes) : (mkBlob d).length = 10 + 2 * d.length := by
  simp [mkBlob, u32ToLeBytes]
  omega

lemma mkBlob_parts (d : Bytes) :
    mkBlob d = u32ToLeBytes (crc32 d) ++
      (1 :: (d ++ (u32ToLeBytes (crc32 d) ++ 0 :: d))) := by
  simp [mkBlob]

lemma storedCrc1_mkBlob (d : Bytes) : storedCrc1 (mkBlob d) = crc32 d := by
  unfold storedCrc1
  rw [mkBlob_parts, List.take_left' (u32ToLeBytes_length _)]
  exact u32_roundtrip (crc32_lt d)

lemma mkBlob_halves (d : Bytes) :
    mkBlob d = (u32ToLeBytes (crc32 d) ++ 1 :: d) ++ (u32ToLeBytes (crc32 d) ++ 0 :: d) := by
  simp [mkBlob]

lemma mkBlob_single_len (d : Bytes) : (mkBlob d).length / 2 = 5 + d.length := by
  have := mkBlob_length d
  omega

lemma storedCrc2_mkBlob (d : Bytes) : storedCrc2 (mkBlob d) = crc32 d := by
  unfold storedCrc2
  rw [mkBlob_single_len, mkBlob_halves,
    List.drop_left' (by simp [u32ToLeBytes]; omega),
    List.take_left' (u32ToLeBytes_length _)]
  exact u32_roundtrip (crc32_lt d)

lemma dataRegion_mkBlob (d : Bytes) :
    ((mkBlob d).drop 5).take ((mkBlob d).length / 2 - 5) = d := by
  rw [mkBlob_single_len]
  have h : mkBlob d =
      (u32ToLeBytes (crc32 d) ++ [1]) ++ (d ++ (u32ToLeBytes (crc32 d) ++ 0 :: d)) := by
    simp [mkBlob]
  rw [h, List.drop_left' (by simp [u32ToLeBytes]), List.take_left' (by omega)]

lemma calcCrc1_mkBlob (d : Bytes) : calcCrc1 (mkBlob d) = crc32 d := by
  unfold calcCrc1
  rw [dataRegion_mkBlob]

lemma calcCrc2_mkBlob (d : Bytes) : calcCrc2 (mkBlob d) = crc32 d := by
  unfold calcCrc2
  rw [mkBlob_single_len]
  have h : mkBlob d =
      ((u32ToLeBytes (crc32 d) ++ 1 :: d) ++ (u32ToLeBytes (crc32 d) ++ [0])) ++ d := by
    simp [mkBlob]
  rw [show 5 + d.length + 5 =
      ((u32ToLeBytes (crc32 d) ++ 1 :: d) ++ (u32ToLeBytes (crc32 d) ++ [0])).length by
    simp [u32ToLeBytes]; omega]
  rw [h, List.drop_left]

lemma decode_mkBlob (d : Bytes) :
    redundant_env_bytes_to_hashmap (mkBlob d) =
      match parseRecords (splitOnZero d) with
      | .ok ps => .ok (buildEnv ps)
      | .error k => .panicked k := by
  have hlen := mkBlob_length d
  unfold redundant_env_bytes_to_hashmap
  rw [if_neg (by omega), if_neg (by
    rw [storedCrc1_mkBlob, storedCrc2_mkBlob, calcCrc1_mkBlob, calcCrc2_mkBlob]
    simp)]
  rw [dataRegion_mkBlob]

/-! ### Splitting on NUL: shape of a serialized-then-padded data region -/

lemma splitOnZero_ne_nil (l : Bytes) : splitOnZero l ≠ [] := by
  induction l with
  | nil => simp [splitOnZero]
  | cons b t ih =>
    unfold splitOnZero
    split
    · simp
    · cases h : splitOnZero t with
      | nil => exact absurd h ih
      | cons x xs => simp [h]

lemma splitOnZero_cons_zero (r : Bytes) : splitOnZero (0 :: r) = [] :: splitOnZero r := by
  simp [splitOnZero]

lemma splitOnZero_cons_ne (b : Nat) (r : Bytes) (hb : b ≠ 0) :
    splitOnZero (b :: r) =
      match splitOnZero r with
      | [] => [[b]]
      | h :: t => (b :: h) :: t := by
  conv_lhs => unfold splitOnZero
  rw [if_neg hb]

lemma splitOnZero_sep (a r : Bytes) (ha : ∀ b ∈ a, b ≠ 0) :
    splitOnZero (a ++ 0 :: r) = a :: splitOnZero r := by
  induction a with
  | nil => simpa using splitOnZero_cons_zero r
  | cons b t ih =>
    have hb : b ≠ 0 := ha b (by simp)
    have ih' := ih (fun x hx => ha x (by simp [hx]))
    simp only [List.cons_append]
    rw [splitOnZero_cons_ne b _ hb, ih']

lemma splitOnZero_replicate (n : Nat) :
    splitOnZero (List.replicate n 0) = List.replicate (n + 1) [] := by
  induction n with
  | zero => rfl
  | succ k ih => simp [List.replicate_succ, splitOnZero_cons_zero, ih]

lemma splitOnZero_serializeEnv (hm : List (Bytes × Bytes)) (n : Nat)
    (h : ∀ p ∈ hm, (∀ b ∈ p.1, b ≠ 0) ∧ (∀ b ∈ p.2, b ≠ 0)) :
    splitOnZero (serializeEnv hm ++ List.replicate n 0) =
      hm.map (fun p => p.1 ++ 61 :: p.2) ++ List.replicate (n + 1) [] := by
  induction hm with
  | nil => simpa [serializeEnv] using splitOnZero_replicate n
  | cons p l ih =>
    obtain ⟨hk, hv⟩ := h p (by simp)
    have hstep : serializeEnv (p :: l) ++ List.replicate n 0 =
        (p.1 ++ 61 :: p.2) ++ 0 :: (serializeEnv l ++ List.replicate n 0) := by
      simp [serializeEnv]
    rw [hstep, splitOnZero_sep _ _ (by
      intro b hb
      rcases List.mem_append.mp hb with h1 | h2
      · exact hk b h1
      · rcases List.mem_cons.mp h2 with h3 | h4
        · omega
        · exact hv b h4)]
    rw [ih (fun q hq => h q (by simp [hq]))]
    simp

/-! ### UTF-8 facts -/

lemma validUtf8_append {a : Bytes} (b : Bytes) (ha : validUtf8 a = true) :
    validUtf8 (a ++ b) = validUtf8 b := by
  have h0 : a.foldl utf8Step 0 = 0 := by simpa [validUtf8] using ha
  simp [validUtf8, List.foldl_append, h0]

lemma validUtf8_body {k v : Bytes} (hk : validUtf8 k = true) (hv : validUtf8 v = true) :
    validUtf8 (k ++ 61 :: v) = true := by
  rw [validUtf8_append _ hk]
  have h61 : utf8Step 0 61 = 0 := by decide
  simpa [validUtf8, h61] using hv

/-! ### split_once at the first `=` -/

lemma splitOnce61_append (k v : Bytes) (hk : ∀ b ∈ k, b ≠ 61) :
    splitOnce61 (k ++ 61 :: v) = some (k, v) := by
  induction k with
  | nil => simp [splitOnce61]
  | cons b t ih =>
    have hb : b ≠ 61 := hk b (by simp)
    simp only [List.cons_append]
    unfold splitOnce61
    rw [if_neg hb, ih (fun x hx => hk x (by simp [hx]))]

/-! ### Parsing the candidate list of a well-formed data region -/

lemma parseRecords_replicate_nil (m : Nat) :
    parseRecords (List.replicate m []) = .ok [] := by
  induction m with
  | zero => rfl
  | succ k ih => simp [List.replicate_succ, parseRecords, validUtf8, ih]

lemma parseRecords_good (hm : List (Bytes × Bytes)) (m : Nat)
    (h : ∀ p ∈ hm, validUtf8 p.1 = true ∧ validUtf8 p.2 = true ∧ (∀ b ∈ p.1, b ≠ 61)) :
    parseRecords (hm.map (fun p => p.1 ++ 61 :: p.2) ++ List.replicate m []) = .ok hm := by
  induction hm with
  | nil => simpa using parseRecords_replicate_nil m
  | cons p l ih =>
    obtain ⟨hk, hv, hne⟩ := h p (by simp)
    have hbody : validUtf8 (p.1 ++ 61 :: p.2) = true := validUtf8_body hk hv
    have hlen : (p.1 ++ 61 :: p.2).length > 0 := by simp
    have hrest := ih (fun q hq => h q (by simp [hq]))
    simp only [List.map_cons, List.cons_append, parseRecords, hbody, if_true, hlen,
      splitOnce61_append p.1 p.2 hne, List.append_eq]
    rw [hrest]
    rfl

/-! ### The map built from parsed pairs -/

lemma envInsert_notmem (m : List (Bytes × Bytes)) (k v : Bytes)
    (h : ∀ q ∈ m, q.1 ≠ k) : envInsert m k v = m ++ [(k, v)] := by
  unfold envInsert
  rw [if_neg (by
    intro hc
    simp only [List.any_eq_true, beq_iff_eq] at hc
    obtain ⟨q, hq, hqk⟩ := hc
    exact h q hq hqk)]

lemma buildEnv_aux (l : List (Bytes × Bytes)) :
    ∀ m, (∀ p ∈ l, ∀ q ∈ m, q.1 ≠ p.1) → l.Pairwise (fun p q => p.1 ≠ q.1) →
      l.foldl (fun m p => envInsert m p.1 p.2) m = m ++ l := by
  induction l with
  | nil => intro m _ _; simp
  | cons p l ih =>
    intro m hd hp
    obtain ⟨hph, hpt⟩ := List.pairwise_cons.mp hp
    rw [List.foldl_cons, envInsert_notmem _ _ _ (fun q hq => hd p (by simp) q hq)]
    rw [ih (m ++ [(p.1, p.2)]) (by
      intro r hr q hq
      rcases List.mem_append.mp hq with h1 | h2
      · exact hd r (by simp [hr]) q h1
      · rcases List.mem_cons.mp h2 with h3 | h4
        · rw [h3]; exact hph r hr
        · simp at h4) hpt]
    simp

lemma buildEnv_nodup (hm : List (Bytes × Bytes))
    (hp : hm.Pairwise (fun p q => p.1 ≠ q.1)) : buildEnv hm = hm := by
  simpa [buildEnv] using buildEnv_aux hm [] (by simp) hp

/-! ### Lookup in the built map: the last record with a key wins -/

lemma find?_pair_cons (q : Bytes × Bytes) (t : List (Bytes × Bytes)) (k' : Bytes) :
    List.find? (fun p => p.1 == k') (q :: t) =
      if (q.1 == k') = true then some q else List.find? (fun p => p.1 == k') t := by
  by_cases h : (q.1 == k') = true
  · rw [if_pos h]
    exact List.find?_cons_of_pos t h
  · rw [if_neg h]
    exact List.find?_cons_of_neg t h

lemma envLookup_cons (q : Bytes × Bytes) (t : List (Bytes × Bytes)) (k' : Bytes) :
    envLookup (q :: t) k' =
      if (q.1 == k') = true then some q.2 else envLookup t k' := by
  unfold envLookup
  rw [find?_pair_cons]
  by_cases h : (q.1 == k') = true
  · rw [if_pos h, if_pos h]
    rfl
  · rw [if_neg h, if_neg h]

lemma envLookup_nil (k' : Bytes) : envLookup [] k' = none := rfl

lemma envLookup_map_ne (t : List (Bytes × Bytes)) (k v k' : Bytes) (hkk : k' ≠ k) :
    envLookup (t.map (fun p => if p.1 == k then (k, v) else p)) k' = envLookup t k' := by
  induction t with
  | nil => rfl
  | cons q t ih =>
    have hkf : (k == k') = false := by simp [Ne.symm hkk]
    simp only [List.map_cons]
    rw [envLookup_cons, envLookup_cons]
    by_cases hq : (q.1 == k) = true
    · have hq1 : q.1 = k := by simpa using hq
      have ih2 : envLookup (List.map (fun p => if p.1 = k then (k, v) else p) t) k' =
          envLookup t k' := by simpa using ih
      simp [hq, hq1, hkf, ih2]
    · have ih2 : envLookup (List.map (fun p => if p.1 = k then (k, v) else p) t) k' =
          envLookup t k' := by simpa using ih
      simp [hq, ih2]

lemma envLookup_map_insert (m : List (Bytes × Bytes)) (k v k' : Bytes)
    (ha : (m.any fun p => p.1 == k) = true) :
    envLookup (m.map fun p => if p.1 == k then (k, v) else p) k' =
      if k' = k then some v else envLookup m k' := by
  by_cases hk : k' = k
  · subst hk
    rw [if_pos rfl]
    induction m with
    | nil => simp at ha
    | cons q t ih =>
      simp only [List.map_cons]
      rw [envLookup_cons]
      by_cases hq : (q.1 == k') = true
      · simp [hq]
      · have hat : (t.any fun p => p.1 == k') = true := by
          simpa [List.any_cons, hq] using ha
        have ih2 : envLookup (List.map (fun p => if p.1 = k' then (k', v) else p) t) k' =
            some v := by simpa using ih hat
        simp [hq, ih2]
  · rw [if_neg hk]
    exact envLookup_map_ne m k v k' hk

lemma envLookup_append_single (m : List (Bytes × Bytes)) (k v k' : Bytes)
    (h : ∀ q ∈ m, ¬((q.1 == k) = true)) :
    envLookup (m ++ [(k, v)]) k' = if k' = k then some v else envLookup m k' := by
  induction m with
  | nil =>
    rw [List.nil_append, envLookup_cons]
    by_cases hk : k' = k
    · simp [hk]
    · simp [hk, Ne.symm hk, envLookup_nil]
  | cons q t ih =>
    have hq := h q (by simp)
    rw [List.cons_append, envLookup_cons, envLookup_cons]
    by_cases hq' : (q.1 == k') = true
    · have hk : ¬(k' = k) := by
        intro he
        subst he
        exact hq hq'
      simp [hq', hk]
    · rw [if_neg hq', if_neg hq', ih (fun r hr => h r (by simp [hr]))]

lemma envLookup_envInsert (m : List (Bytes × Bytes)) (k v k' : Bytes) :
    envLookup (envInsert m k v) k' = if k' = k then some v else envLookup m k' := by
  unfold envInsert
  split
  · next ha => exact envLookup_map_insert m k v k' ha
  · next ha =>
    refine envLookup_append_single m k v k' ?_
    intro q hq hc
    exact ha (List.any_eq_true.mpr ⟨q, hq, hc⟩)

lemma envLookup_foldl (ps : List (Bytes × Bytes)) (k : Bytes) :
    ∀ m, envLookup (ps.foldl (fun m p => envInsert m p.1 p.2) m) k =
      ((ps.reverse.find? (fun p => p.1 == k)).map (fun p => p.2)).or (envLookup m k) := by
  induction ps with
  | nil => intro m; simp
  | cons p t ih =>
    intro m
    rw [List.foldl_cons, ih, List.reverse_cons, List.find?_append]
    cases h : t.reverse.find? (fun p => p.1 == k) with
    | some q => simp
    | none =>
      simp only [Option.map_none', Option.none_or]
      rw [envLookup_envInsert, find?_pair_cons]
      by_cases hp : (p.1 == k) = true
      · have hkp : k = p.1 := Eq.symm (by simpa using hp)
        simp [hp, hkp]
      · have hkp : ¬(k = p.1) := fun he => hp (by simp [he])
        simp [hp, hkp]

lemma envLookup_buildEnv (ps : List (Bytes × Bytes)) (k : Bytes) :
    envLookup (buildEnv ps) k =
      (ps.reverse.find? (fun p => p.1 == k)).map (fun p => p.2) := by
  have h := envLookup_foldl ps k []
  simpa [buildEnv, envLookup] using h


/-! ### Encoding: success shape and exact output length -/

lemma encode_ok (hm : List (Bytes × Bytes)) (len : Nat) (heven : len % 2 = 0)
    (h5 : 5 ≤ len / 2) (hfit : (serializeEnv hm).length ≤ len / 2 - 5) :
    hashmap_to_redundant_env_bytes hm len = .ok (encLayout hm len) := by
  simp only [hashmap_to_redundant_env_bytes]
  rw [if_neg (by omega), if_neg (by
    rw [not_ne_iff]
    simp only [List.length_append, List.length_cons, List.length_nil,
      List.length_replicate, u32ToLeBytes]
    omega)]
  rfl

lemma encode_ok_length {hm : List (Bytes × Bytes)} {len : Nat} {bs : Bytes}
    (h : hashmap_to_redundant_env_bytes hm len = .ok bs) : bs.length = len := by
  simp only [hashmap_to_redundant_env_bytes] at h
  split at h
  · simp at h
  · split at h
    · simp at h
    · next hne =>
      injection h with h'
      subst h'
      exact not_ne_iff.mp hne

/-! ### Positional access helpers -/

lemma getD_append_lt (l₁ l₂ : Bytes) (n : Nat) (h : n < l₁.length) :
    (l₁ ++ l₂).getD n 0 = l₁.getD n 0 := by
  simp [List.getD_eq_getElem?_getD, List.getElem?_append, h]

lemma getD_append_ge (l₁ l₂ : Bytes) (n : Nat) (h : l₁.length ≤ n) :
    (l₁ ++ l₂).getD n 0 = l₂.getD (n - l₁.length) 0 := by
  simp [List.getD_eq_getElem?_getD, List.getElem?_append_right h]

lemma getD_take (l : Bytes) (n m : Nat) (h : m < n) :
    (l.take n).getD m 0 = l.getD m 0 := by
  simp [List.getD_eq_getElem?_getD, List.getElem?_take, h]

lemma getD_drop (l : Bytes) (n m : Nat) :
    (l.drop n).getD m 0 = l.getD (n + m) 0 := by
  simp [List.getD_eq_getElem?_getD, List.getElem?_drop]

lemma getD_replicate (n m : Nat) (h : m < n) :
    (List.replicate n 0).getD m 0 = 0 := by
  simp [List.getD_eq_getElem?_getD, List.getElem?_replicate, h]

/-!
## The claims
-/

/-- C2: for every blob of even length at least 10, decode fails with a
`crcMismatch` carrying the two stored CRCs and the two freshly computed CRCs
if and only if those four values are not all pairwise equal (the code checks
`crc_one = crc_two ∧ crc_one = calc_crc_one ∧ crc_one = calc_crc_two`, which
is equivalent to pairwise equality of all four). In particular a blob whose
two computed CRCs agree with each other but disagree with the stored values
still fails, and no slot is ever trusted on stored values alone. -/
theorem claim_C2_crc_gate (bytes : Bytes) (heven : bytes.length % 2 = 0)
    (h10 : 10 ≤ bytes.length) :
    redundant_env_bytes_to_hashmap bytes =
        .crcMismatch (storedCrc1 bytes) (storedCrc2 bytes) (calcCrc1 bytes) (calcCrc2 bytes)
      ↔ ¬(storedCrc1 bytes = storedCrc2 bytes ∧ storedCrc1 bytes = calcCrc1 bytes ∧
          storedCrc1 bytes = calcCrc2 bytes) := by
  constructor
  · intro h hc
    unfold redundant_env_bytes_to_hashmap at h
    rw [if_neg (by omega), if_neg (not_not_intro hc)] at h
    split at h <;> simp at h
  · intro hc
    unfold redundant_env_bytes_to_hashmap
    rw [if_neg (by omega), if_pos hc]

/-- Witness for C2 at the all-zero 10-byte blob. -/
theorem claim_C2_crc_gate_witness :
    ((List.replicate 10 0 : Bytes).length % 2 = 0 ∧
      10 ≤ (List.replicate 10 0 : Bytes).length) ∧
    (redundant_env_bytes_to_hashmap (List.replicate 10 0) =
        .crcMismatch (storedCrc1 (List.replicate 10 0)) (storedCrc2 (List.replicate 10 0))
          (calcCrc1 (List.replicate 10 0)) (calcCrc2 (List.replicate 10 0))
      ↔ ¬(storedCrc1 (List.replicate 10 0) = storedCrc2 (List.replicate 10 0) ∧
          storedCrc1 (List.replicate 10 0) = calcCrc1 (List.replicate 10 0) ∧
          storedCrc1 (List.replicate 10 0) = calcCrc2 (List.replicate 10 0))) :=
  ⟨⟨by decide, by decide⟩, claim_C2_crc_gate (List.replicate 10 0) (by decide) (by decide)⟩

/-- C4 (code bug): on a 5-byte file, a read of 10 bytes at offset 0 reaches
end of file early, yet `read_file` does not fail with a short-read error: the
single unchecked `read` call leaves the rest of the buffer zero-filled and
decoding proceeds on the zero-padded buffer, here returning an empty
environment. The claim's required `ShortRead` failure does not exist in the
code. -/
theorem claim_C4_short_read_zero_filled :
    (List.replicate 5 0 : Bytes).length < 0 + 10
    ∧ readBuffer (List.replicate 5 0) 0 10 = List.replicate 10 0
    ∧ read_file (List.replicate 5 0) 0 10 = .ok [] :=
  ⟨by decide, by decide, by decide⟩

/-- C6: encode fails with `dataTooLarge`, carrying the actual serialized
length and the maximum `len / 2 - 5`, exactly when the serialized length
exceeds that maximum; at or below the bound this error never occurs. (The
`dataTooLarge` result carries no bytes, so no output is produced.) -/
theorem claim_C6_size_enforcement (hm : List (Bytes × Bytes)) (len : Nat) :
    ((serializeEnv hm).length > len / 2 - 5 →
      hashmap_to_redundant_env_bytes hm len =
        .dataTooLarge (serializeEnv hm).length (len / 2 - 5))
    ∧ ((serializeEnv hm).length ≤ len / 2 - 5 →
      ∀ u mx, hashmap_to_redundant_env_bytes hm len ≠ .dataTooLarge u mx) := by
  constructor
  · intro h
    simp only [hashmap_to_redundant_env_bytes]
    rw [if_pos h]
  · intro h u mx
    simp only [hashmap_to_redundant_env_bytes]
    rw [if_neg (by omega)]
    split <;> simp

/-- Witness for C6: an environment of serialized length 4 overflows
`L = 10` (max 0), and the empty environment fits `L = 26` (max 8). -/
theorem claim_C6_size_enforcement_witness :
    ((serializeEnv [([97], [120])]).length > 10 / 2 - 5 ∧
      hashmap_to_redundant_env_bytes [([97], [120])] 10 = .dataTooLarge 4 0) ∧
    ((serializeEnv ([] : List (Bytes × Bytes))).length ≤ 26 / 2 - 5 ∧
      hashmap_to_redundant_env_bytes [] 26 ≠ .dataTooLarge 0 8) :=
  ⟨⟨by decide, (claim_C6_size_enforcement [([97], [120])] 10).1 (by decide)⟩,
    ⟨by decide, (claim_C6_size_enforcement [] 26).2 (by decide) 0 8⟩⟩

/-- C7 (code bug): on a blob that passes the four-way CRC check, a non-empty
candidate record without `=` makes decode abort via
`split_once("=").unwrap()`, and a candidate that is not valid UTF-8 makes it
abort via `from_utf8(sl).unwrap()`. The claim's required typed
`MalformedRecord` / `InvalidUtf8` error returns do not exist in the code;
the process is terminated instead (modelled by the `panicked` outcomes). -/
theorem claim_C7_decode_panics :
    redundant_env_bytes_to_hashmap (mkBlob [97, 0]) = .panicked .missingSeparator
    ∧ redundant_env_bytes_to_hashmap (mkBlob [255, 0]) = .panicked .utf8Error :=
  ⟨by decide, by decide⟩

/-- C8 (code bug): when the assembled output length differs from `len`
(possible only for `len` violating the preconditions, e.g. odd `len = 11`),
encode terminates the process via `panic!("environment is the wrong
size!")` — there is no typed `SizeInvariantViolated` error result. The
second conjunct proves the claim's unreachability statement: for even `len`
with `len / 2 - 5 > 0`, the size-mismatch branch is never taken. -/
theorem claim_C8_size_invariant :
    hashmap_to_redundant_env_bytes [] 11 = .panicked
    ∧ (∀ (hm : List (Bytes × Bytes)) (len : Nat), len % 2 = 0 → 0 < len / 2 - 5 →
        hashmap_to_redundant_env_bytes hm len ≠ .panicked) := by
  constructor
  · decide
  · intro hm len heven hpos
    simp only [hashmap_to_redundant_env_bytes]
    split
    · simp
    · next husage =>
      rw [if_neg (by
        rw [not_ne_iff]
        simp only [List.length_append, List.length_cons, List.length_nil,
          List.length_replicate, u32ToLeBytes]
        omega)]
      simp

/-- Witness for C8's unreachability conjunct at the even length 12. -/
theorem claim_C8_size_invariant_witness :
    (12 % 2 = 0 ∧ 0 < 12 / 2 - 5) ∧
    hashmap_to_redundant_env_bytes [] 12 ≠ .panicked :=
  ⟨⟨by decide, by decide⟩, claim_C8_size_invariant.2 [] 12 (by decide) (by decide)⟩

/-- C9 (code bug): encode serializes the pairs in the backing `HashMap`'s
iteration order, which is not a function of the key/value contents. The two
lists below hold exactly the same key/value pairs (each is contained in the
other), i.e. they are the same map presented in two iteration orders, yet
the encoded byte sequences differ. The claim's required determinism (equal
maps always produce identical bytes) fails on the code. -/
theorem claim_C9_determinism_fails :
    hashmap_to_redundant_env_bytes [([97], [120]), ([98], [121])] 26
      ≠ hashmap_to_redundant_env_bytes [([98], [121]), ([97], [120])] 26
    ∧ (∀ p ∈ ([([97], [120]), ([98], [121])] : List (Bytes × Bytes)),
        p ∈ ([([98], [121]), ([97], [120])] : List (Bytes × Bytes)))
    ∧ (∀ p ∈ ([([98], [121]), ([97], [120])] : List (Bytes × Bytes)),
        p ∈ ([([97], [120]), ([98], [121])] : List (Bytes × Bytes))) :=
  ⟨by decide, by decide, by decide⟩

/-- C10: for every blob that passes the four-way CRC check and whose slot-1
data region parses into well-formed records `ps`, decode succeeds (duplicate
keys are never an error), and the resulting environment maps each key to the
value of the last record with that key in scan order: the lookup equals the
first hit of `find?` on the reversed record list. -/
theorem claim_C10_last_write_wins (bytes : Bytes) (ps : List (Bytes × Bytes))
    (heven : bytes.length % 2 = 0) (h10 : 10 ≤ bytes.length)
    (hcrc : storedCrc1 bytes = storedCrc2 bytes ∧ storedCrc1 bytes = calcCrc1 bytes ∧
      storedCrc1 bytes = calcCrc2 bytes)
    (hps : parseRecords (splitOnZero ((bytes.drop 5).take (bytes.length / 2 - 5))) = .ok ps) :
    redundant_env_bytes_to_hashmap bytes = .ok (buildEnv ps)
    ∧ ∀ k, envLookup (buildEnv ps) k =
        (ps.reverse.find? (fun p => p.1 == k)).map (fun p => p.2) := by
  constructor
  · unfold redundant_env_bytes_to_hashmap
    rw [if_neg (by omega), if_neg (not_not_intro hcrc), hps]
  · intro k
    exact envLookup_buildEnv ps k

/-- Witness for C10 on a blob whose data region holds the duplicate-key
records `a=1` and `a=2`: decode succeeds and `a` maps to `2`. -/
theorem claim_C10_last_write_wins_witness :
    ((mkBlob [97, 61, 49, 0, 97, 61, 50, 0]).length % 2 = 0
      ∧ 10 ≤ (mkBlob [97, 61, 49, 0, 97, 61, 50, 0]).length)
    ∧ redundant_env_bytes_to_hashmap (mkBlob [97, 61, 49, 0, 97, 61, 50, 0]) =
        .ok (buildEnv [([97], [49]), ([97], [50])])
    ∧ envLookup (buildEnv [([97], [49]), ([97], [50])]) [97] =
        (([([97], [49]), ([97], [50])] : List (Bytes × Bytes)).reverse.find?
          (fun p => p.1 == [97])).map (fun p => p.2) := by
  have H := claim_C10_last_write_wins (mkBlob [97, 61, 49, 0, 97, 61, 50, 0])
    [([97], [49]), ([97], [50])] (by decide) (by decide) (by decide) (by decide)
  exact ⟨⟨by decide, by decide⟩, H.1, H.2 [97]⟩

/-- C1: round trip. For an environment (a map: pairwise-distinct keys,
keys and values valid UTF-8 as Rust `String`s ensure) whose keys are
non-empty and contain no NUL and no `=`, whose values contain no NUL, and
whose serialized form fits in `len / 2 - 5` bytes for even `len` with
`len / 2 - 5 > 0`, decoding the encoded blob succeeds and returns a map
holding exactly the original key/value pairs (order-independent). -/
theorem claim_C1_round_trip (hm : List (Bytes × Bytes)) (len : Nat) (bs : Bytes)
    (hkey : ∀ p ∈ hm, p.1 ≠ [] ∧ (∀ b ∈ p.1, b ≠ 0 ∧ b ≠ 61) ∧ validUtf8 p.1 = true)
    (hval : ∀ p ∈ hm, (∀ b ∈ p.2, b ≠ 0) ∧ validUtf8 p.2 = true)
    (hnodup : hm.Pairwise (fun p q => p.1 ≠ q.1))
    (heven : len % 2 = 0) (hpos : 0 < len / 2 - 5)
    (hfit : (serializeEnv hm).length ≤ len / 2 - 5)
    (henc : hashmap_to_redundant_env_bytes hm len = .ok bs) :
    redundant_env_bytes_to_hashmap bs = .ok (buildEnv hm)
    ∧ (∀ p, p ∈ buildEnv hm ↔ p ∈ hm) := by
  have h5 : 5 ≤ len / 2 := by omega
  have henc2 := encode_ok hm len heven h5 hfit
  rw [henc] at henc2
  injection henc2 with hbs
  subst hbs
  unfold encLayout
  rw [decode_mkBlob]
  have hsplit : splitOnZero (paddedOf hm len) =
      hm.map (fun p => p.1 ++ 61 :: p.2) ++
        List.replicate ((len / 2 - 5 - (serializeEnv hm).length) + 1) [] :=
    splitOnZero_serializeEnv hm _
      (fun p hp => ⟨fun b hb => ((hkey p hp).2.1 b hb).1, (hval p hp).1⟩)
  rw [hsplit, parseRecords_good hm _
    (fun p hp => ⟨(hkey p hp).2.2, (hval p hp).2,
      fun b hb => ((hkey p hp).2.1 b hb).2⟩)]
  refine ⟨rfl, ?_⟩
  rw [buildEnv_nodup hm hnodup]
  intro p
  exact Iff.rfl

/-- Witness for C1 at the one-pair environment `{ "a" : "x" }`, `len = 26`. -/
theorem claim_C1_round_trip_witness :
    (26 % 2 = 0 ∧ 0 < 26 / 2 - 5 ∧ (serializeEnv [([97], [120])]).length ≤ 26 / 2 - 5 ∧
      hashmap_to_redundant_env_bytes [([97], [120])] 26 = .ok (encLayout [([97], [120])] 26)) ∧
    redundant_env_bytes_to_hashmap (encLayout [([97], [120])] 26) =
      .ok (buildEnv [([97], [120])]) ∧
    (([97], [120]) ∈ buildEnv [([97], [120])] ↔
      (([97], [120]) : Bytes × Bytes) ∈ [([97], [120])]) := by
  have H := claim_C1_round_trip [([97], [120])] 26 (encLayout [([97], [120])] 26)
    (by decide) (by decide) (by decide) (by decide) (by decide) (by decide) (by decide)
  exact ⟨⟨by decide, by decide, by decide, by decide⟩, H.1, H.2 ([97], [120])⟩

/-- C5: frame property of `patch_file`. On a pre-existing file of length at
least `offset + len`, when encoding succeeds the patched file keeps every
byte before `offset` and at or after `offset + len` unchanged, has unchanged
total length, and carries exactly the encoded bytes inside the region. -/
theorem claim_C5_region_isolation (hm : List (Bytes × Bytes)) (file : Bytes)
    (offset len : Nat) (bs : Bytes)
    (hsize : offset + len ≤ file.length)
    (henc : hashmap_to_redundant_env_bytes hm len = .ok bs) :
    patch_file hm file offset len = some (writeAt file offset bs)
    ∧ (writeAt file offset bs).length = file.length
    ∧ (∀ i, i < offset → (writeAt file offset bs).getD i 0 = file.getD i 0)
    ∧ (∀ i, offset + len ≤ i → (writeAt file offset bs).getD i 0 = file.getD i 0)
    ∧ (∀ j, j < len → (writeAt file offset bs).getD (offset + j) 0 = bs.getD j 0) := by
  have hbl : bs.length = len := encode_ok_length henc
  have htake : (file.take offset).length = offset := by
    rw [List.length_take]
    omega
  have hassoc : writeAt file offset bs =
      (file.take offset ++ bs) ++ file.drop (offset + bs.length) := by
    simp [writeAt]
  have htb : (file.take offset ++ bs).length = offset + len := by
    rw [List.length_append, htake, hbl]
  refine ⟨?_, ?_, ?_, ?_, ?_⟩
  · unfold patch_file
    rw [henc]
  · rw [hassoc]
    simp only [List.length_append, List.length_drop, htake, hbl]
    omega
  · intro i hi
    rw [hassoc, getD_append_lt _ _ _ (by rw [htb]; omega),
      getD_append_lt _ _ _ (by rw [htake]; omega), getD_take _ _ _ hi]
  · intro i hi
    rw [hassoc, getD_append_ge _ _ _ (by rw [htb]; omega), htb, hbl, getD_drop,
      show offset + len + (i - (offset + len)) = i from by omega]
  · intro j hj
    rw [hassoc, getD_append_lt _ _ _ (by rw [htb]; omega),
      getD_append_ge _ _ _ (by rw [htake]; omega), htake, Nat.add_sub_cancel_left]

/-- Witness for C5: patching a 20-byte file of sevens at offset 3 with the
empty environment at `len = 10`. -/
theorem claim_C5_region_isolation_witness :
    (3 + 10 ≤ (List.replicate 20 7 : Bytes).length ∧
      hashmap_to_redundant_env_bytes [] 10 = .ok (encLayout [] 10)) ∧
    patch_file [] (List.replicate 20 7) 3 10 =
      some (writeAt (List.replicate 20 7) 3 (encLayout [] 10)) ∧
    (writeAt (List.replicate 20 7) 3 (encLayout [] 10)).getD 0 0 =
      (List.replicate 20 7 : Bytes).getD 0 0 ∧
    (writeAt (List.replicate 20 7) 3 (encLayout [] 10)).getD 15 0 =
      (List.replicate 20 7 : Bytes).getD 15 0 ∧
    (writeAt (List.replicate 20 7) 3 (encLayout [] 10)).getD (3 + 2) 0 =
      (encLayout [] 10).getD 2 0 := by
  have H := claim_C5_region_isolation [] (List.replicate 20 7) 3 10 (encLayout [] 10)
    (by decide) (by decide)
  exact ⟨⟨by decide, by decide⟩, H.1, H.2.2.1 0 (by decide), H.2.2.2.1 15 (by decide),
    H.2.2.2.2 2 (by decide)⟩

/-! ### Further positional facts about an assembled blob, for C3 -/

lemma mkBlob_drop5 (d : Bytes) :
    (mkBlob d).drop 5 = d ++ (u32ToLeBytes (crc32 d) ++ 0 :: d) := by
  have h : mkBlob d =
      (u32ToLeBytes (crc32 d) ++ [1]) ++ (d ++ (u32ToLeBytes (crc32 d) ++ 0 :: d)) := by
    simp [mkBlob]
  rw [h, List.drop_left' (by simp [u32ToLeBytes])]

lemma mkBlob_take4 (d : Bytes) : (mkBlob d).take 4 = u32ToLeBytes (crc32 d) := by
  rw [mkBlob_parts, List.take_left' (u32ToLeBytes_length _)]

lemma mkBlob_getD4 (d : Bytes) : (mkBlob d).getD 4 0 = 1 := by
  rw [mkBlob_parts, getD_append_ge _ _ _ (by simp [u32ToLeBytes])]
  simp [u32ToLeBytes]

lemma mkBlob_drop_half (d : Bytes) :
    (mkBlob d).drop (5 + d.length) = u32ToLeBytes (crc32 d) ++ 0 :: d := by
  rw [mkBlob_halves, List.drop_left' (by simp [u32ToLeBytes]; omega)]

lemma mkBlob_getD_flag2 (d : Bytes) : (mkBlob d).getD (5 + d.length + 4) 0 = 0 := by
  have h : mkBlob d =
      ((u32ToLeBytes (crc32 d) ++ 1 :: d) ++ u32ToLeBytes (crc32 d)) ++ (0 :: d) := by
    simp [mkBlob]
  have hl : ((u32ToLeBytes (crc32 d) ++ 1 :: d) ++ u32ToLeBytes (crc32 d)).length =
      5 + d.length + 4 := by
    simp [u32ToLeBytes]
    omega
  rw [h, getD_append_ge _ _ _ (le_of_eq hl), hl, Nat.sub_self]
  rfl

lemma mkBlob_drop_data2 (d : Bytes) : (mkBlob d).drop (5 + d.length + 5) = d := by
  have h : mkBlob d =
      (((u32ToLeBytes (crc32 d) ++ 1 :: d) ++ u32ToLeBytes (crc32 d)) ++ [0]) ++ d := by
    simp [mkBlob]
  rw [h, List.drop_left' (by simp [u32ToLeBytes]; omega)]

lemma mkBlob_data_take (d : Bytes) : ((mkBlob d).drop 5).take d.length = d := by
  rw [mkBlob_drop5, List.take_left]

/-- C3: encode output layout. In general, a fitting environment at even
`len` (with `len / 2 ≥ 5`) encodes to
`[CRC32 LE][1][padded data][CRC32 LE][0][padded data]` of total length
exactly `len`; concretely, for `{"bootdelay": "5"}` at `L = 0x20000` the
record `"bootdelay=5\x00"` sits at bytes `[5, 17)`, bytes `[16, 0x10000-5)`
are zero, bytes `[0, 4)` hold the little-endian CRC32 of the padded data
region, byte 4 is 1, the same CRC is repeated at `0x10000`, byte
`0x10000 + 4` is 0, and the second data region is bit-identical to the
first. -/
theorem claim_C3_layout :
    (∀ (hm : List (Bytes × Bytes)) (len : Nat), len % 2 = 0 → 5 ≤ len / 2 →
      (serializeEnv hm).length ≤ len / 2 - 5 →
      hashmap_to_redundant_env_bytes hm len = .ok (encLayout hm len)
      ∧ (encLayout hm len).length = len)
    ∧ hashmap_to_redundant_env_bytes bootdelayEnv 131072 = .ok bootdelayBlob
    ∧ (bootdelayBlob.drop 5).take 12 = bootdelayRecord
    ∧ (∀ i, 16 ≤ i → i < 65531 → bootdelayBlob.getD i 0 = 0)
    ∧ bootdelayBlob.take 4 = u32ToLeBytes (crc32 (paddedOf bootdelayEnv 131072))
    ∧ bootdelayBlob.getD 4 0 = 1
    ∧ (bootdelayBlob.drop 65536).take 4 = bootdelayBlob.take 4
    ∧ bootdelayBlob.getD 65540 0 = 0
    ∧ bootdelayBlob.drop 65541 = (bootdelayBlob.drop 5).take 65531 := by
  have hser : serializeEnv bootdelayEnv = bootdelayRecord := rfl
  have hrl : bootdelayRecord.length = 12 := rfl
  have hP : paddedOf bootdelayEnv 131072 = bootdelayRecord ++ List.replicate 65519 0 := by
    unfold paddedOf
    rw [hser, hrl]
  have hPlen : (paddedOf bootdelayEnv 131072).length = 65531 := by
    rw [hP, List.length_append, hrl, List.length_replicate]
  have hblob : bootdelayBlob = mkBlob (paddedOf bootdelayEnv 131072) := rfl
  have hgen : ∀ (hm : List (Bytes × Bytes)) (len : Nat), len % 2 = 0 → 5 ≤ len / 2 →
      (serializeEnv hm).length ≤ len / 2 - 5 →
      hashmap_to_redundant_env_bytes hm len = .ok (encLayout hm len)
      ∧ (encLayout hm len).length = len := by
    intro hm len heven h5 hfit
    refine ⟨encode_ok hm len heven h5 hfit, ?_⟩
    unfold encLayout
    rw [mkBlob_length]
    unfold paddedOf
    rw [List.length_append, List.length_replicate]
    omega
  refine ⟨hgen, (hgen bootdelayEnv 131072 (by norm_num) (by norm_num) (by decide)).1,
    ?_, ?_, ?_, ?_, ?_, ?_, ?_⟩
  · rw [hblob, mkBlob_drop5, hP, List.append_assoc, List.take_left' hrl]
  · intro i h16 h65
    rw [hblob, mkBlob_parts, getD_append_ge _ _ _ (by simp [u32ToLeBytes]; omega),
      u32ToLeBytes_length, show i - 4 = (i - 5) + 1 from by omega, List.getD_cons_succ,
      getD_append_lt _ _ _ (by rw [hPlen]; omega), hP]
    by_cases hi : i - 5 < 12
    · rw [getD_append_lt _ _ _ (by rw [hrl]; omega),
        show i - 5 = 11 from by omega]
      decide
    · rw [getD_append_ge _ _ _ (by rw [hrl]; omega), hrl]
      exact getD_replicate _ _ (by omega)
  · rw [hblob, mkBlob_take4]
  · rw [hblob, mkBlob_getD4]
  · rw [hblob, show (65536 : Nat) = 5 + (paddedOf bootdelayEnv 131072).length from by
      rw [hPlen], mkBlob_drop_half, List.take_left' (u32ToLeBytes_length _), mkBlob_take4]
  · rw [hblob, show (65540 : Nat) = 5 + (paddedOf bootdelayEnv 131072).length + 4 from by
      rw [hPlen], mkBlob_getD_flag2]
  · rw [hblob, show (65541 : Nat) = 5 + (paddedOf bootdelayEnv 131072).length + 5 from by
      rw [hPlen], show (65531 : Nat) = (paddedOf bootdelayEnv 131072).length from hPlen.symm,
      mkBlob_drop_data2, mkBlob_data_take]

/-- Witness for C3's general layout conjunct at the empty environment and
`len = 10`. -/
theorem claim_C3_layout_witness :
    (10 % 2 = 0 ∧ 5 ≤ 10 / 2 ∧ (serializeEnv ([] : List (Bytes × Bytes))).length ≤ 10 / 2 - 5) ∧
    (hashmap_to_redundant_env_bytes [] 10 = .ok (encLayout [] 10) ∧
      (encLayout [] 10).length = 10) :=
  ⟨⟨by decide, by decide, by decide⟩,
    claim_C3_layout.1 [] 10 (by decide) (by decide) (by decide)⟩

end UBoot
